import Mathlib

/-!
Shallow embedding of the reconciliation/query layer of the `triseratops`
crate (`src/container.rs`): the `Container` type holding six optional
decoded Serato tag records, and its query operations `auto_gain`,
`gain_db`, `beatgrid`, `bpm_locked`, `cues`, `loops`, `track_color` and
`overview`.

The Rust code uses `std::collections::BTreeMap` as the working mapping of
the cue/loop reconciliation algorithms.  It is embedded here as an
association list kept strictly sorted by key, with `insertSorted`,
`removeKey` and `lookupKey` mirroring `BTreeMap::insert`,
`BTreeMap::remove` and lookup, and `List.map Prod.snd` mirroring
`map.values()` (which iterates in ascending key order).
-/

namespace Serato

/-- Sorted-association-list embedding of `BTreeMap::insert`: replaces the
entry at an equal key, otherwise inserts at the sorted position. -/
def insertSorted {α : Type} (k : Nat) (v : α) : List (Nat × α) → List (Nat × α)
  | [] => [(k, v)]
  | (k1, v1) :: rest =>
    if k < k1 then (k, v) :: (k1, v1) :: rest
    else if k = k1 then (k, v) :: rest
    else (k1, v1) :: insertSorted k v rest

/-- Sorted-association-list embedding of `BTreeMap::remove` (the removed
entry, when needed, is recovered with `lookupKey` first). -/
def removeKey {α : Type} (k : Nat) : List (Nat × α) → List (Nat × α)
  | [] => []
  | (k1, v1) :: rest => if k = k1 then rest else (k1, v1) :: removeKey k rest

/-- Key lookup in the association list. -/
def lookupKey {α : Type} (k : Nat) : List (Nat × α) → Option α
  | [] => none
  | (k1, v1) :: rest => if k = k1 then some v1 else lookupKey k rest

/-- The association list is strictly sorted by key (the `BTreeMap`
representation invariant). -/
def KeysSorted {α : Type} (l : List (Nat × α)) : Prop :=
  l.Pairwise (fun a b => a.1 < b.1)

/-- Every stored value carries its own key in its index field (`f` extracts
the index from a value). -/
def ValsIndexed {α : Type} (f : α → Nat) (l : List (Nat × α)) : Prop :=
  ∀ p ∈ l, f p.2 = p.1

/-- Seeding loop of `cues()`/`loops()`: `for x in markers { map.insert(x.index, x) }`
starting from the empty map, with `f` extracting the index. -/
def seedMap {α : Type} (f : α → Nat) (l : List α) : List (Nat × α) :=
  l.foldl (fun map q => insertSorted (f q) q map) []

/-- Modelled from the spec: an RGB color value (`util::Color`, not under
`src/`); only construction and equality matter to this layer. -/
structure Color where
  red : Nat
  green : Nat
  blue : Nat
deriving DecidableEq, Repr

/-- Modelled from the spec: the kind tag of a legacy Markers-v1 entry
(`tag::markers::EntryType`, not under `src/`): `INVALID`, `CUE`, `LOOP`,
or other. -/
inductive EntryType where
  | INVALID
  | CUE
  | LOOP
  | OTHER
deriving DecidableEq, Repr

/-- Modelled from the spec: a legacy Markers-v1 entry (`tag::markers::Marker`,
not under `src/`): a kind tag, an optional start time in milliseconds, an
optional end time in milliseconds (loops only), a color, and a lock flag
(loops only). -/
structure Marker where
  start_position_millis : Option Nat
  end_position_millis : Option Nat
  color : Color
  entry_type : EntryType
  is_locked : Bool
deriving DecidableEq, Repr

/-- Modelled from the spec: a Markers-v2 cue marker
(`tag::markers2::CueMarker`, not under `src/`): index, position in
milliseconds, color, optional label. -/
structure CueMarker where
  index : Nat
  position_millis : Nat
  color : Color
  label : Option String
deriving DecidableEq, Repr

/-- Modelled from the spec: a Markers-v2 loop marker
(`tag::markers2::LoopMarker`, not under `src/`): index, start/end times in
milliseconds, color, optional label, lock flag. -/
structure LoopMarker where
  index : Nat
  start_position_millis : Nat
  end_position_millis : Nat
  color : Color
  label : Option String
  is_locked : Bool
deriving DecidableEq, Repr

/-- Modelled from the spec: the Markers-v1 record (`tag::Markers`, not under
`src/`): an ordered mapping from integer index to legacy marker entry, of
which `cues()` and `loops()` expose the cue-slot and loop-slot entries as
index-ordered `(index, entry)` sequences, plus an overall track color. -/
structure Markers where
  cues : List (Nat × Marker)
  loops : List (Nat × Marker)
  track_color : Color

/-- Modelled from the spec: the Markers-v2 record (`tag::Markers2`, not under
`src/`): a set of cue markers and loop markers in record order
(exposed by its `cues()`/`loops()` accessors), plus an optional overall
track color and an optional BPM-lock flag (exposed by `track_color()` and
`bpm_locked()`). -/
structure Markers2 where
  cues : List CueMarker
  loops : List LoopMarker
  track_color : Option Color
  bpm_locked : Option Bool

/-- Modelled from the spec: the Autotags record (`tag::Autotags`, not under
`src/`): holds `auto_gain` and `gain_db` floating-point values. -/
structure Autotags where
  auto_gain : Float
  gain_db : Float

/-- Modelled from the spec: a non-terminal beat marker
(`tag::beatgrid::NonTerminalMarker`, not under `src/`). -/
structure NonTerminalMarker where
  position_secs : Float
  beats_till_next_marker : Nat

/-- Modelled from the spec: the terminal beat marker
(`tag::beatgrid::TerminalMarker`, not under `src/`). -/
structure TerminalMarker where
  position_secs : Float
  bpm : Float

/-- Modelled from the spec: the BeatGrid record (`tag::Beatgrid`, not under
`src/`): an ordered sequence of non-terminal beat markers and exactly one
terminal beat marker. -/
structure Beatgrid where
  non_terminal_markers : List NonTerminalMarker
  terminal_marker : TerminalMarker

/-- Modelled from the spec: the Overview record (`tag::Overview`, not under
`src/`): an ordered sequence of byte sequences of waveform summary data. -/
structure Overview where
  data : List (List Nat)

/-- Modelled from the spec: the Analysis record (`tag::Analysis`, not under
`src/`), opaque to this layer beyond its presence. -/
structure Analysis where
  dummy : Unit

/-- The reconciliation container (`Container` in `src/container.rs`): six
independent optional slots, one per record kind. -/
structure Container where
  analysis : Option Analysis
  autotags : Option Autotags
  beatgrid : Option Beatgrid
  markers : Option Markers
  markers2 : Option Markers2
  overview : Option Overview

/-- `Container::new()`: the empty container, all slots absent. -/
def Container.new : Container :=
  { analysis := none, autotags := none, beatgrid := none,
    markers := none, markers2 := none, overview := none }

/-- `Container::auto_gain()`. -/
def Container.auto_gain (c : Container) : Option Float :=
  match c.autotags with
  | some tag => some tag.auto_gain
  | none => none

/-- `Container::gain_db()`. -/
def Container.gain_db (c : Container) : Option Float :=
  match c.autotags with
  | some tag => some tag.gain_db
  | none => none

/-- `Container::beatgrid()` (named `queryBeatgrid` here because the slot
field already carries the name `beatgrid`). -/
def Container.queryBeatgrid (c : Container) : Option (List NonTerminalMarker × TerminalMarker) :=
  match c.beatgrid with
  | some tag => some (tag.non_terminal_markers, tag.terminal_marker)
  | none => none

/-- `Container::bpm_locked()`. -/
def Container.bpm_locked (c : Container) : Option Bool :=
  match c.markers2 with
  | some m => m.bpm_locked
  | none => none

/-- One iteration of the `Serato Markers_` loop in `Container::cues()`:
`INVALID` removes the index; `CUE` with an absent start time removes the
index; `CUE` with a present start time replaces position and color at an
index already in the mapping, keeping the v2 label; any other kind is
ignored. -/
def cueStep (map : List (Nat × CueMarker)) (e : Nat × Marker) : List (Nat × CueMarker) :=
  match e.2.entry_type with
  | EntryType.INVALID => removeKey e.1 map
  | EntryType.CUE =>
    match e.2.start_position_millis with
    | none => removeKey e.1 map
    | some position_millis =>
      match lookupKey e.1 map with
      | some c =>
        insertSorted e.1
          { index := e.1, position_millis := position_millis,
            color := e.2.color, label := c.label }
          (removeKey e.1 map)
      | none => map
  | _ => map

/-- The `Serato Markers_` pass of `Container::cues()` over the working
mapping. -/
def applyV1Cues (map : List (Nat × CueMarker)) (l : List (Nat × Marker)) :
    List (Nat × CueMarker) :=
  l.foldl cueStep map

/-- The working mapping of `Container::cues()`: seeded from the
`Serato Markers2` cues, then rewritten by the `Serato Markers_` entries. -/
def Container.cuesMap (c : Container) : List (Nat × CueMarker) :=
  let map : List (Nat × CueMarker) :=
    match c.markers2 with
    | some m => seedMap CueMarker.index m.cues
    | none => []
  match c.markers with
  | some m => applyV1Cues map m.cues
  | none => map

/-- `Container::cues()`: the values of the working mapping in ascending key
order. -/
def Container.cues (c : Container) : List CueMarker :=
  c.cuesMap.map Prod.snd

/-- One iteration of the `Serato Markers_` loop in `Container::loops()`: a
non-`LOOP` kind is skipped; a `LOOP` with either time absent removes the
index; otherwise start/end/color/lock-flag replace the values at an index
already in the mapping, keeping the v2 label. -/
def loopStep (map : List (Nat × LoopMarker)) (e : Nat × Marker) : List (Nat × LoopMarker) :=
  if e.2.entry_type ≠ EntryType.LOOP then map
  else
    match e.2.start_position_millis, e.2.end_position_millis with
    | some start_position_millis, some end_position_millis =>
      match lookupKey e.1 map with
      | some c =>
        insertSorted e.1
          { index := e.1, start_position_millis := start_position_millis,
            end_position_millis := end_position_millis,
            color := e.2.color, label := c.label, is_locked := e.2.is_locked }
          (removeKey e.1 map)
      | none => map
    | _, _ => removeKey e.1 map

/-- The `Serato Markers_` pass of `Container::loops()` over the working
mapping. -/
def applyV1Loops (map : List (Nat × LoopMarker)) (l : List (Nat × Marker)) :
    List (Nat × LoopMarker) :=
  l.foldl loopStep map

/-- The working mapping of `Container::loops()`: seeded from the
`Serato Markers2` loops, then rewritten by the `Serato Markers_` entries. -/
def Container.loopsMap (c : Container) : List (Nat × LoopMarker) :=
  let map : List (Nat × LoopMarker) :=
    match c.markers2 with
    | some m => seedMap LoopMarker.index m.loops
    | none => []
  match c.markers with
  | some m => applyV1Loops map m.loops
  | none => map

/-- `Container::loops()`: the values of the working mapping in ascending key
order. -/
def Container.loops (c : Container) : List LoopMarker :=
  c.loopsMap.map Prod.snd

/-- `Container::track_color()`: the `Serato Markers2` track color first,
overwritten by the `Serato Markers_` one when that slot is present. -/
def Container.track_color (c : Container) : Option Color :=
  let track_color : Option Color :=
    match c.markers2 with
    | some m => m.track_color
    | none => none
  match c.markers with
  | some m => some m.track_color
  | none => track_color

/-- `Container::overview()` (named `queryOverview` here because the slot
field already carries the name `overview`). -/
def Container.queryOverview (c : Container) : Option (List (List Nat)) :=
  match c.overview with
  | some tag => some tag.data
  | none => none

/-- Panic-instrumented variant of `cueStep`: the `unwrap()` on
`start_position_millis` in `Container::cues()` is modelled explicitly,
`none` denoting a panic. -/
def cueStepE (map : List (Nat × CueMarker)) (e : Nat × Marker) :
    Option (List (Nat × CueMarker)) :=
  match e.2.entry_type with
  | EntryType.INVALID => some (removeKey e.1 map)
  | EntryType.CUE =>
    if e.2.start_position_millis = none then some (removeKey e.1 map)
    else
      match lookupKey e.1 map with
      | some c =>
        match e.2.start_position_millis with
        | none => none
        | some position_millis =>
          some (insertSorted e.1
            { index := e.1, position_millis := position_millis,
              color := e.2.color, label := c.label }
            (removeKey e.1 map))
      | none => some map
  | _ => some map

/-- Panic-instrumented variant of `Container::cues()`. -/
def Container.cuesE (c : Container) : Option (List CueMarker) :=
  let map : List (Nat × CueMarker) :=
    match c.markers2 with
    | some m => seedMap CueMarker.index m.cues
    | none => []
  let mapE : Option (List (Nat × CueMarker)) :=
    match c.markers with
    | some m => m.cues.foldlM cueStepE map
    | none => some map
  mapE.map (List.map Prod.snd)

/-- Panic-instrumented variant of `loopStep`: the two `unwrap()` calls in
`Container::loops()` are modelled explicitly, `none` denoting a panic. -/
def loopStepE (map : List (Nat × LoopMarker)) (e : Nat × Marker) :
    Option (List (Nat × LoopMarker)) :=
  if e.2.entry_type ≠ EntryType.LOOP then some map
  else if e.2.start_position_millis = none ∨ e.2.end_position_millis = none then
    some (removeKey e.1 map)
  else
    match lookupKey e.1 map with
    | some c =>
      match e.2.start_position_millis, e.2.end_position_millis with
      | some start_position_millis, some end_position_millis =>
        some (insertSorted e.1
          { index := e.1, start_position_millis := start_position_millis,
            end_position_millis := end_position_millis,
            color := e.2.color, label := c.label, is_locked := e.2.is_locked }
          (removeKey e.1 map))
      | _, _ => none
    | none => some map

/-- Panic-instrumented variant of `Container::loops()`. -/
def Container.loopsE (c : Container) : Option (List LoopMarker) :=
  let map : List (Nat × LoopMarker) :=
    match c.markers2 with
    | some m => seedMap LoopMarker.index m.loops
    | none => []
  let mapE : Option (List (Nat × LoopMarker)) :=
    match c.markers with
    | some m => m.loops.foldlM loopStepE map
    | none => some map
  mapE.map (List.map Prod.snd)

/-! Concrete sample records, used by the witnesses below.  They follow the
spec's worked scenarios: v2 defines cue 3 at 1000 ms labeled "Intro", v1
defines index 3 at 1200 ms with color red and kind `CUE`, v1 marks index 5
`INVALID`, and so on. -/

def redColor : Color := { red := 204, green := 0, blue := 0 }

def blueColor : Color := { red := 0, green := 0, blue := 204 }

def greenColor : Color := { red := 0, green := 204, blue := 0 }

def introCue : CueMarker :=
  { index := 3, position_millis := 1000, color := blueColor, label := some "Intro" }

def fiveCue : CueMarker :=
  { index := 5, position_millis := 2000, color := blueColor, label := some "Five" }

def sampleLoop2 : LoopMarker :=
  { index := 1, start_position_millis := 10, end_position_millis := 20,
    color := blueColor, label := some "L1", is_locked := false }

def v1Cue3 : Marker :=
  { start_position_millis := some 1200, end_position_millis := none,
    color := redColor, entry_type := EntryType.CUE, is_locked := false }

def v1Invalid5 : Marker :=
  { start_position_millis := none, end_position_millis := none,
    color := redColor, entry_type := EntryType.INVALID, is_locked := false }

def v1Loop1 : Marker :=
  { start_position_millis := some 100, end_position_millis := some 200,
    color := redColor, entry_type := EntryType.LOOP, is_locked := true }

def v1CueNoStart : Marker :=
  { start_position_millis := none, end_position_millis := none,
    color := redColor, entry_type := EntryType.CUE, is_locked := false }

def v1LoopNoEnd : Marker :=
  { start_position_millis := some 100, end_position_millis := none,
    color := redColor, entry_type := EntryType.LOOP, is_locked := false }

def m2Sample : Markers2 :=
  { cues := [introCue, fiveCue], loops := [sampleLoop2],
    track_color := some blueColor, bpm_locked := some true }

def m1Sample : Markers :=
  { cues := [(3, v1Cue3), (5, v1Invalid5)], loops := [(1, v1Loop1)],
    track_color := greenColor }

def cSample : Container :=
  { analysis := none, autotags := none, beatgrid := none,
    markers := some m1Sample, markers2 := some m2Sample, overview := none }

def cNoV1 : Container :=
  { analysis := none, autotags := none, beatgrid := none,
    markers := none, markers2 := some m2Sample, overview := none }

def fourCue : CueMarker :=
  { index := 4, position_millis := 400, color := blueColor, label := some "Four" }

def sixLoop : LoopMarker :=
  { index := 6, start_position_millis := 60, end_position_millis := 66,
    color := blueColor, label := some "Six", is_locked := false }

def m2Bad : Markers2 :=
  { cues := [fourCue], loops := [sixLoop], track_color := none, bpm_locked := none }

def m1Bad : Markers :=
  { cues := [(4, v1CueNoStart)], loops := [(6, v1LoopNoEnd)], track_color := greenColor }

def cBad : Container :=
  { analysis := none, autotags := none, beatgrid := none,
    markers := some m1Bad, markers2 := some m2Bad, overview := none }

def nineCue : CueMarker :=
  { index := 9, position_millis := 500, color := blueColor, label := none }

def m2Nine : Markers2 :=
  { cues := [introCue, fiveCue, nineCue], loops := [sampleLoop2],
    track_color := some blueColor, bpm_locked := some false }

def cNine : Container :=
  { analysis := none, autotags := none, beatgrid := none,
    markers := some m1Sample, markers2 := some m2Nine, overview := none }

def m1Nine : Markers :=
  { cues := [(9, v1Cue3)], loops := [(7, v1Loop1)], track_color := greenColor }

def cNineV1 : Container :=
  { analysis := none, autotags := none, beatgrid := none,
    markers := some m1Nine, markers2 := some m2Sample, overview := none }

def dupCueA : CueMarker :=
  { index := 3, position_millis := 111, color := blueColor, label := some "A" }

def dupCueB : CueMarker :=
  { index := 3, position_millis := 222, color := redColor, label := some "B" }

def dupLoopA : LoopMarker :=
  { index := 2, start_position_millis := 5, end_position_millis := 6,
    color := blueColor, label := some "LA", is_locked := false }

def dupLoopB : LoopMarker :=
  { index := 2, start_position_millis := 7, end_position_millis := 9,
    color := redColor, label := some "LB", is_locked := true }

def m2Dup : Markers2 :=
  { cues := [dupCueA, dupCueB], loops := [dupLoopA, dupLoopB],
    track_color := none, bpm_locked := none }

def cDup : Container :=
  { analysis := none, autotags := none, beatgrid := none,
    markers := none, markers2 := some m2Dup, overview := none }

/-! Basic lemmas about the sorted-association-list map operations. -/

theorem removeKey_sublist {α : Type} (k : Nat) (l : List (Nat × α)) :
    (removeKey k l).Sublist l := by
  induction l with
  | nil => simp [removeKey]
  | cons p rest ih =>
    obtain ⟨k1, v1⟩ := p
    by_cases h : k = k1
    · simp only [removeKey, if_pos h]
      exact List.sublist_cons_self _ _
    · simp only [removeKey, if_neg h]
      exact List.Sublist.cons₂ _ ih

theorem lookupKey_eq_none_iff {α : Type} {k : Nat} {l : List (Nat × α)} :
    lookupKey k l = none ↔ ∀ p ∈ l, p.1 ≠ k := by
  induction l with
  | nil => simp [lookupKey]
  | cons p rest ih =>
    obtain ⟨k1, v1⟩ := p
    by_cases h : k = k1 <;> simp [lookupKey, h, ih, eq_comm]

theorem lookupKey_mem {α : Type} {k : Nat} {v : α} {l : List (Nat × α)}
    (h : lookupKey k l = some v) : (k, v) ∈ l := by
  induction l with
  | nil => simp [lookupKey] at h
  | cons p rest ih =>
    obtain ⟨k1, v1⟩ := p
    by_cases hk : k = k1
    · simp only [lookupKey, if_pos hk] at h
      cases h
      simp [hk]
    · simp only [lookupKey, if_neg hk] at h
      exact List.mem_cons_of_mem _ (ih h)

theorem lookupKey_ne_none_of_mem {α : Type} {k : Nat} {v : α} {l : List (Nat × α)}
    (h : (k, v) ∈ l) : lookupKey k l ≠ none := by
  intro hnone
  exact (lookupKey_eq_none_iff.mp hnone) (k, v) h rfl

theorem lookupKey_insertSorted_self {α : Type} (k : Nat) (v : α) (l : List (Nat × α)) :
    lookupKey k (insertSorted k v l) = some v := by
  induction l with
  | nil => simp [insertSorted, lookupKey]
  | cons p rest ih =>
    obtain ⟨k1, v1⟩ := p
    rcases Nat.lt_trichotomy k k1 with h | h | h
    · simp [insertSorted, h, lookupKey]
    · simp [insertSorted, h, lookupKey, Nat.lt_irrefl]
    · have h1 : ¬ k < k1 := Nat.not_lt_of_gt h
      have h2 : k ≠ k1 := Nat.ne_of_gt h
      simp [insertSorted, h1, h2, lookupKey, ih]

theorem lookupKey_insertSorted_ne {α : Type} {j k : Nat} (v : α) (l : List (Nat × α))
    (h : j ≠ k) : lookupKey j (insertSorted k v l) = lookupKey j l := by
  induction l with
  | nil => simp [insertSorted, lookupKey, h]
  | cons p rest ih =>
    obtain ⟨k1, v1⟩ := p
    rcases Nat.lt_trichotomy k k1 with hlt | heq | hgt
    · simp [insertSorted, hlt, lookupKey, h]
    · subst heq
      simp [insertSorted, Nat.lt_irrefl, lookupKey, h]
    · have h1 : ¬ k < k1 := Nat.not_lt_of_gt hgt
      have h2 : k ≠ k1 := Nat.ne_of_gt hgt
      by_cases hj : j = k1 <;> simp [insertSorted, h1, h2, lookupKey, hj, ih]

theorem lookupKey_removeKey_ne {α : Type} {j k : Nat} (l : List (Nat × α))
    (h : j ≠ k) : lookupKey j (removeKey k l) = lookupKey j l := by
  induction l with
  | nil => simp [removeKey]
  | cons p rest ih =>
    obtain ⟨k1, v1⟩ := p
    by_cases hk : k = k1
    · subst hk
      simp [removeKey, lookupKey, h]
    · by_cases hj : j = k1 <;> simp [removeKey, hk, lookupKey, hj, ih]

theorem mem_insertSorted {α : Type} {p : Nat × α} {k : Nat} {v : α} {l : List (Nat × α)}
    (h : p ∈ insertSorted k v l) : p = (k, v) ∨ p ∈ l := by
  induction l with
  | nil => simpa [insertSorted] using h
  | cons q rest ih =>
    obtain ⟨k1, v1⟩ := q
    rcases Nat.lt_trichotomy k k1 with hlt | heq | hgt
    · simp only [insertSorted, if_pos hlt, List.mem_cons] at h ⊢
      tauto
    · subst heq
      simp [insertSorted, List.mem_cons] at h ⊢
      tauto
    · have h1 : ¬ k < k1 := Nat.not_lt_of_gt hgt
      have h2 : k ≠ k1 := Nat.ne_of_gt hgt
      simp only [insertSorted, if_neg h1, if_neg h2, List.mem_cons] at h ⊢
      rcases h with h | h
      · tauto
      · rcases ih h with h | h <;> tauto

theorem keysSorted_removeKey {α : Type} {k : Nat} {l : List (Nat × α)}
    (h : KeysSorted l) : KeysSorted (removeKey k l) :=
  List.Pairwise.sublist (removeKey_sublist k l) h

theorem keysSorted_insertSorted {α : Type} {l : List (Nat × α)} (k : Nat) (v : α)
    (h : KeysSorted l) : KeysSorted (insertSorted k v l) := by
  induction l with
  | nil => simp [insertSorted, KeysSorted]
  | cons p rest ih =>
    obtain ⟨k1, v1⟩ := p
    rw [KeysSorted, List.pairwise_cons] at h
    obtain ⟨hhead, htail⟩ := h
    rcases Nat.lt_trichotomy k k1 with hlt | heq | hgt
    · rw [KeysSorted]
      simp only [insertSorted, if_pos hlt]
      refine List.Pairwise.cons ?_ (List.Pairwise.cons hhead htail)
      intro b hb
      rcases List.mem_cons.mp hb with hb | hb
      · simpa [hb] using hlt
      · exact Nat.lt_trans hlt (hhead b hb)
    · subst heq
      rw [KeysSorted]
      simp only [insertSorted, Nat.lt_irrefl, if_neg (Nat.lt_irrefl k), if_pos rfl]
      exact List.Pairwise.cons hhead htail
    · have h1 : ¬ k < k1 := Nat.not_lt_of_gt hgt
      have h2 : k ≠ k1 := Nat.ne_of_gt hgt
      rw [KeysSorted]
      simp only [insertSorted, if_neg h1, if_neg h2]
      refine List.Pairwise.cons ?_ (ih htail)
      intro b hb
      rcases mem_insertSorted hb with hb | hb
      · simpa [hb] using hgt
      · exact hhead b hb

theorem lookupKey_removeKey_self {α : Type} {k : Nat} {l : List (Nat × α)}
    (h : KeysSorted l) : lookupKey k (removeKey k l) = none := by
  induction l with
  | nil => simp [removeKey, lookupKey]
  | cons p rest ih =>
    obtain ⟨k1, v1⟩ := p
    rw [KeysSorted, List.pairwise_cons] at h
    obtain ⟨hhead, htail⟩ := h
    by_cases hk : k = k1
    · subst hk
      simp only [removeKey, if_pos rfl]
      rw [lookupKey_eq_none_iff]
      intro p hp
      exact Nat.ne_of_gt (hhead p hp)
    · simp only [removeKey, if_neg hk, lookupKey, if_neg hk]
      exact ih htail

theorem lookupKey_of_mem_sorted {α : Type} {k : Nat} {v : α} {l : List (Nat × α)}
    (hs : KeysSorted l) (h : (k, v) ∈ l) : lookupKey k l = some v := by
  induction l with
  | nil => simp at h
  | cons p rest ih =>
    obtain ⟨k1, v1⟩ := p
    rw [KeysSorted, List.pairwise_cons] at hs
    obtain ⟨hhead, htail⟩ := hs
    rcases List.mem_cons.mp h with heq | hmem
    · cases heq
      simp [lookupKey]
    · have hk : k ≠ k1 := by
        intro e
        have hlt := hhead (k, v) hmem
        rw [e] at hlt
        exact Nat.lt_irrefl _ hlt
      simp only [lookupKey, if_neg hk]
      exact ih htail hmem

theorem valsIndexed_insertSorted {α : Type} {f : α → Nat} {l : List (Nat × α)} {k : Nat} {v : α}
    (hl : ValsIndexed f l) (hv : f v = k) : ValsIndexed f (insertSorted k v l) := by
  intro p hp
  rcases mem_insertSorted hp with h | h
  · subst h
    exact hv
  · exact hl p h

theorem valsIndexed_removeKey {α : Type} {f : α → Nat} {l : List (Nat × α)} (k : Nat)
    (hl : ValsIndexed f l) : ValsIndexed f (removeKey k l) := by
  intro p hp
  exact hl p ((removeKey_sublist k l).subset hp)

/-- Translation from a lookup fact about the working mapping to facts about
the returned value list: the looked-up value is in the list, and it is the
only element of the list carrying that index. -/
theorem values_at_of_lookup {α : Type} {f : α → Nat} {l : List (Nat × α)} {i : Nat} {x : α}
    (hs : KeysSorted l) (hv : ValsIndexed f l) (hl : lookupKey i l = some x) :
    x ∈ l.map Prod.snd ∧ ∀ q ∈ l.map Prod.snd, f q = i → q = x := by
  constructor
  · exact List.mem_map_of_mem Prod.snd (lookupKey_mem hl)
  · intro q hq hfq
    rcases List.mem_map.mp hq with ⟨p, hp, hpq⟩
    obtain ⟨pk, pv⟩ := p
    cases hpq
    have hik : pk = i := (hv _ hp).symm.trans hfq
    subst hik
    have hlk := lookupKey_of_mem_sorted hs hp
    rw [hl] at hlk
    exact (Option.some.inj hlk).symm

/-- Translation from a lookup miss on the working mapping to the absence of
the index among the returned values. -/
theorem values_none_of_lookup {α : Type} {f : α → Nat} {l : List (Nat × α)} {i : Nat}
    (hv : ValsIndexed f l) (hl : lookupKey i l = none) :
    ∀ q ∈ l.map Prod.snd, f q ≠ i := by
  intro q hq hfq
  rcases List.mem_map.mp hq with ⟨p, hp, hpq⟩
  obtain ⟨pk, pv⟩ := p
  cases hpq
  have hik : pk = i := (hv _ hp).symm.trans hfq
  subst hik
  exact lookupKey_ne_none_of_mem hp hl

theorem foldl_invariant {σ β : Type} (P : σ → Prop) (step : σ → β → σ)
    (hstep : ∀ s e, P s → P (step s e)) :
    ∀ (l : List β) (s : σ), P s → P (l.foldl step s) := by
  intro l
  induction l with
  | nil => intro s hs; exact hs
  | cons x xs ih =>
    intro s hs
    exact ih _ (hstep s x hs)

theorem seedFold_lookup_none {α : Type} (f : α → Nat) (i : Nat) (l : List α)
    (hf : ∀ x ∈ l, f x ≠ i) :
    ∀ init, lookupKey i (l.foldl (fun map q => insertSorted (f q) q map) init) =
      lookupKey i init := by
  induction l with
  | nil => intro init; simp
  | cons x xs ih =>
    intro init
    rw [List.foldl_cons, ih (fun y hy => hf y (List.mem_cons_of_mem _ hy))]
    exact lookupKey_insertSorted_ne _ _ (fun h => hf x (List.mem_cons_self _ _) h.symm)

/-- Seeding the working mapping from the list `l₁ ++ x :: l₂`, where no
element after `x` carries `x`'s index: the entry seeded at that index is
exactly `x` (later duplicates overwrite earlier ones in `BTreeMap::insert`). -/
theorem seedFold_lookup_last {α : Type} (f : α → Nat) (l₁ l₂ : List α) (x : α)
    (h2 : ∀ y ∈ l₂, f y ≠ f x) (init : List (Nat × α)) :
    lookupKey (f x) ((l₁ ++ x :: l₂).foldl (fun map q => insertSorted (f q) q map) init) =
      some x := by
  rw [List.foldl_append, List.foldl_cons, seedFold_lookup_none f (f x) l₂ h2]
  exact lookupKey_insertSorted_self _ _ _

theorem seedFold_lookup_nodup {α : Type} (f : α → Nat) {l : List α} {x : α}
    (hn : (l.map f).Nodup) (hx : x ∈ l) :
    ∀ init, lookupKey (f x) (l.foldl (fun map q => insertSorted (f q) q map) init) =
      some x := by
  induction l with
  | nil => simp at hx
  | cons y ys ih =>
    intro init
    rw [List.map_cons, List.nodup_cons] at hn
    obtain ⟨hy, hys⟩ := hn
    rw [List.foldl_cons]
    rcases List.mem_cons.mp hx with h | h
    · subst h
      have hne : ∀ z ∈ ys, f z ≠ f x := by
        intro z hz he
        exact hy (he ▸ List.mem_map_of_mem f hz)
      rw [seedFold_lookup_none f (f x) ys hne]
      exact lookupKey_insertSorted_self _ _ _
    · exact ih hys h _

theorem seedMap_sorted {α : Type} (f : α → Nat) (l : List α) : KeysSorted (seedMap f l) := by
  refine foldl_invariant KeysSorted _ ?_ l [] ?_
  · intro s e hs
    exact keysSorted_insertSorted _ _ hs
  · simp [KeysSorted]

theorem seedMap_indexed {α : Type} (f : α → Nat) (l : List α) : ValsIndexed f (seedMap f l) := by
  refine foldl_invariant (ValsIndexed f) _ ?_ l [] ?_
  · intro s e hs
    exact valsIndexed_insertSorted hs rfl
  · intro p hp
    simp at hp

theorem seedMap_lookup_absent {α : Type} (f : α → Nat) (i : Nat) (l : List α)
    (hf : ∀ x ∈ l, f x ≠ i) : lookupKey i (seedMap f l) = none := by
  rw [seedMap, seedFold_lookup_none f i l hf]
  simp [lookupKey]

/-! Lemmas about the `Serato Markers_` pass of `Container::cues()`. -/

theorem cueStep_sorted (map : List (Nat × CueMarker)) (e : Nat × Marker)
    (hs : KeysSorted map) : KeysSorted (cueStep map e) := by
  unfold cueStep
  split
  · exact keysSorted_removeKey hs
  · split
    · exact keysSorted_removeKey hs
    · split
      · exact keysSorted_insertSorted _ _ (keysSorted_removeKey hs)
      · exact hs
  · exact hs

theorem cueStep_indexed (map : List (Nat × CueMarker)) (e : Nat × Marker)
    (hv : ValsIndexed CueMarker.index map) : ValsIndexed CueMarker.index (cueStep map e) := by
  unfold cueStep
  split
  · exact valsIndexed_removeKey _ hv
  · split
    · exact valsIndexed_removeKey _ hv
    · split
      · exact valsIndexed_insertSorted (valsIndexed_removeKey _ hv) rfl
      · exact hv
  · exact hv

theorem cueStep_lookup_ne {map : List (Nat × CueMarker)} {e : Nat × Marker} {j : Nat}
    (hj : j ≠ e.1) : lookupKey j (cueStep map e) = lookupKey j map := by
  unfold cueStep
  split
  · exact lookupKey_removeKey_ne _ hj
  · split
    · exact lookupKey_removeKey_ne _ hj
    · split
      · rw [lookupKey_insertSorted_ne _ _ hj]
        exact lookupKey_removeKey_ne _ hj
      · rfl
  · rfl

theorem cueStep_lookup_none {map : List (Nat × CueMarker)} {e : Nat × Marker} {j : Nat}
    (h : lookupKey j map = none) : lookupKey j (cueStep map e) = none := by
  have hrem : ∀ k, lookupKey j (removeKey k map) = none := by
    intro k
    rw [lookupKey_eq_none_iff] at h ⊢
    intro p hp
    exact h p ((removeKey_sublist _ _).subset hp)
  unfold cueStep
  split
  · exact hrem _
  · split
    · exact hrem _
    · split
      · rename_i c heq
        by_cases hj : j = e.1
        · subst hj
          rw [h] at heq
          simp at heq
        · rw [lookupKey_insertSorted_ne _ _ hj, lookupKey_removeKey_ne _ hj]
          exact h
      · exact h
  · exact h

theorem cueStep_kill {map : List (Nat × CueMarker)} {e : Nat × Marker}
    (hs : KeysSorted map)
    (h : e.2.entry_type = EntryType.INVALID ∨
         (e.2.entry_type = EntryType.CUE ∧ e.2.start_position_millis = none)) :
    lookupKey e.1 (cueStep map e) = none := by
  rcases h with h | ⟨h1, h2⟩
  · simp only [cueStep, h]
    exact lookupKey_removeKey_self hs
  · simp only [cueStep, h1, h2]
    exact lookupKey_removeKey_self hs

theorem cueStep_merge {map : List (Nat × CueMarker)} {e : Nat × Marker} {p : Nat}
    {c : CueMarker}
    (htype : e.2.entry_type = EntryType.CUE)
    (hstart : e.2.start_position_millis = some p)
    (hlook : lookupKey e.1 map = some c) :
    lookupKey e.1 (cueStep map e) =
      some { index := e.1, position_millis := p, color := e.2.color, label := c.label } := by
  simp only [cueStep, htype, hstart, hlook]
  exact lookupKey_insertSorted_self _ _ _

theorem applyV1Cues_sorted (l : List (Nat × Marker)) (map : List (Nat × CueMarker))
    (hs : KeysSorted map) : KeysSorted (applyV1Cues map l) :=
  foldl_invariant KeysSorted cueStep (fun s e h => cueStep_sorted s e h) l map hs

theorem applyV1Cues_indexed (l : List (Nat × Marker)) (map : List (Nat × CueMarker))
    (hv : ValsIndexed CueMarker.index map) : ValsIndexed CueMarker.index (applyV1Cues map l) :=
  foldl_invariant (ValsIndexed CueMarker.index) cueStep (fun s e h => cueStep_indexed s e h)
    l map hv

theorem applyV1Cues_lookup_frozen {l : List (Nat × Marker)} {j : Nat}
    (hj : ∀ e ∈ l, e.1 ≠ j) (map : List (Nat × CueMarker)) :
    lookupKey j (applyV1Cues map l) = lookupKey j map := by
  induction l generalizing map with
  | nil => rfl
  | cons x xs ih =>
    have h1 : lookupKey j (applyV1Cues (cueStep map x) xs) = lookupKey j (cueStep map x) :=
      ih (fun e he => hj e (List.mem_cons_of_mem _ he)) _
    have h0 : applyV1Cues map (x :: xs) = applyV1Cues (cueStep map x) xs := rfl
    rw [h0, h1]
    exact cueStep_lookup_ne (fun h => hj x (List.mem_cons_self _ _) h.symm)

theorem applyV1Cues_lookup_none {l : List (Nat × Marker)} {j : Nat}
    {map : List (Nat × CueMarker)} (h : lookupKey j map = none) :
    lookupKey j (applyV1Cues map l) = none := by
  induction l generalizing map with
  | nil => exact h
  | cons x xs ih => exact ih (cueStep_lookup_none h)

/-- Once a `Serato Markers_` cue entry is `INVALID`, or is a `CUE` with an
absent start time, its index ends up absent from the working mapping, no
matter what the other entries are. -/
theorem applyV1Cues_killed {l : List (Nat × Marker)} {i : Nat} {marker : Marker}
    (hmem : (i, marker) ∈ l)
    (hkill : marker.entry_type = EntryType.INVALID ∨
             (marker.entry_type = EntryType.CUE ∧ marker.start_position_millis = none)) :
    ∀ map, KeysSorted map → lookupKey i (applyV1Cues map l) = none := by
  induction l with
  | nil => simp at hmem
  | cons x xs ih =>
    intro map hs
    rcases List.mem_cons.mp hmem with heq | hmem2
    · cases heq
      have h0 : applyV1Cues map ((i, marker) :: xs) =
          applyV1Cues (cueStep map (i, marker)) xs := rfl
      rw [h0]
      exact applyV1Cues_lookup_none (@cueStep_kill map (i, marker) hs hkill)
    · exact ih hmem2 _ (cueStep_sorted _ _ hs)

/-- The reconciliation of an index present in both sources: with pairwise
distinct `Serato Markers_` entry indices, a `CUE` entry with start time `p`
at an index mapped to `c` rewrites the mapping at that index to the
`Serato Markers_` position and color with `c`'s label. -/
theorem applyV1Cues_merge {l : List (Nat × Marker)} {i p : Nat} {marker : Marker}
    {c : CueMarker}
    (hn : (l.map Prod.fst).Nodup) (hmem : (i, marker) ∈ l)
    (htype : marker.entry_type = EntryType.CUE)
    (hstart : marker.start_position_millis = some p) :
    ∀ map, KeysSorted map → lookupKey i map = some c →
      lookupKey i (applyV1Cues map l) =
        some { index := i, position_millis := p, color := marker.color, label := c.label } := by
  induction l with
  | nil => simp at hmem
  | cons x xs ih =>
    intro map hs hc
    rw [List.map_cons, List.nodup_cons] at hn
    obtain ⟨hx, hxs⟩ := hn
    rcases List.mem_cons.mp hmem with heq | hmem2
    · cases heq
      have hfrozen : ∀ e ∈ xs, e.1 ≠ i := by
        intro e he hei
        have hm : e.1 ∈ xs.map Prod.fst := List.mem_map_of_mem Prod.fst he
        rw [hei] at hm
        exact hx hm
      have h0 : applyV1Cues map ((i, marker) :: xs) = applyV1Cues (cueStep map (i, marker)) xs :=
        rfl
      rw [h0, applyV1Cues_lookup_frozen hfrozen _]
      exact @cueStep_merge map (i, marker) p c htype hstart hc
    · have hxi : i ≠ x.1 := by
        intro hei
        have hm : i ∈ xs.map Prod.fst := List.mem_map_of_mem Prod.fst hmem2
        rw [hei] at hm
        exact hx hm
      have h0 : applyV1Cues map (x :: xs) = applyV1Cues (cueStep map x) xs := rfl
      rw [h0]
      refine ih hxs hmem2 _ (cueStep_sorted _ _ hs) ?_
      rw [cueStep_lookup_ne hxi]
      exact hc

/-! Lemmas about the `Serato Markers_` pass of `Container::loops()`. -/

theorem loopStep_sorted (map : List (Nat × LoopMarker)) (e : Nat × Marker)
    (hs : KeysSorted map) : KeysSorted (loopStep map e) := by
  unfold loopStep
  split
  · exact hs
  · split
    · split
      · exact keysSorted_insertSorted _ _ (keysSorted_removeKey hs)
      · exact hs
    · exact keysSorted_removeKey hs

theorem loopStep_indexed (map : List (Nat × LoopMarker)) (e : Nat × Marker)
    (hv : ValsIndexed LoopMarker.index map) : ValsIndexed LoopMarker.index (loopStep map e) := by
  unfold loopStep
  split
  · exact hv
  · split
    · split
      · exact valsIndexed_insertSorted (valsIndexed_removeKey _ hv) rfl
      · exact hv
    · exact valsIndexed_removeKey _ hv

theorem loopStep_lookup_ne {map : List (Nat × LoopMarker)} {e : Nat × Marker} {j : Nat}
    (hj : j ≠ e.1) : lookupKey j (loopStep map e) = lookupKey j map := by
  unfold loopStep
  split
  · rfl
  · split
    · split
      · rw [lookupKey_insertSorted_ne _ _ hj]
        exact lookupKey_removeKey_ne _ hj
      · rfl
    · exact lookupKey_removeKey_ne _ hj

theorem loopStep_lookup_none {map : List (Nat × LoopMarker)} {e : Nat × Marker} {j : Nat}
    (h : lookupKey j map = none) : lookupKey j (loopStep map e) = none := by
  have hrem : ∀ k, lookupKey j (removeKey k map) = none := by
    intro k
    rw [lookupKey_eq_none_iff] at h ⊢
    intro p hp
    exact h p ((removeKey_sublist _ _).subset hp)
  unfold loopStep
  split
  · exact h
  · split
    · split
      · rename_i c heq
        by_cases hj : j = e.1
        · subst hj
          rw [h] at heq
          simp at heq
        · rw [lookupKey_insertSorted_ne _ _ hj, lookupKey_removeKey_ne _ hj]
          exact h
      · exact h
    · exact hrem _

theorem loopStep_kill {map : List (Nat × LoopMarker)} {e : Nat × Marker}
    (hs : KeysSorted map)
    (h1 : e.2.entry_type = EntryType.LOOP)
    (h2 : e.2.start_position_millis = none ∨ e.2.end_position_millis = none) :
    lookupKey e.1 (loopStep map e) = none := by
  have hrem := lookupKey_removeKey_self (k := e.1) hs
  rcases h2 with h2 | h2
  · simp [loopStep, h1, h2]
    exact hrem
  · rcases hst : e.2.start_position_millis with _ | s
    · simp [loopStep, h1, hst]
      exact hrem
    · simp [loopStep, h1, hst, h2]
      exact hrem

theorem loopStep_merge {map : List (Nat × LoopMarker)} {e : Nat × Marker} {s en : Nat}
    {c : LoopMarker}
    (htype : e.2.entry_type = EntryType.LOOP)
    (hstart : e.2.start_position_millis = some s)
    (hend : e.2.end_position_millis = some en)
    (hlook : lookupKey e.1 map = some c) :
    lookupKey e.1 (loopStep map e) =
      some { index := e.1, start_position_millis := s, end_position_millis := en,
             color := e.2.color, label := c.label, is_locked := e.2.is_locked } := by
  simp [loopStep, htype, hstart, hend, hlook]
  exact lookupKey_insertSorted_self _ _ _

theorem applyV1Loops_sorted (l : List (Nat × Marker)) (map : List (Nat × LoopMarker))
    (hs : KeysSorted map) : KeysSorted (applyV1Loops map l) :=
  foldl_invariant KeysSorted loopStep (fun s e h => loopStep_sorted s e h) l map hs

theorem applyV1Loops_indexed (l : List (Nat × Marker)) (map : List (Nat × LoopMarker))
    (hv : ValsIndexed LoopMarker.index map) : ValsIndexed LoopMarker.index (applyV1Loops map l) :=
  foldl_invariant (ValsIndexed LoopMarker.index) loopStep (fun s e h => loopStep_indexed s e h)
    l map hv

theorem applyV1Loops_lookup_frozen {l : List (Nat × Marker)} {j : Nat}
    (hj : ∀ e ∈ l, e.1 ≠ j) (map : List (Nat × LoopMarker)) :
    lookupKey j (applyV1Loops map l) = lookupKey j map := by
  induction l generalizing map with
  | nil => rfl
  | cons x xs ih =>
    have h1 : lookupKey j (applyV1Loops (loopStep map x) xs) = lookupKey j (loopStep map x) :=
      ih (fun e he => hj e (List.mem_cons_of_mem _ he)) _
    have h0 : applyV1Loops map (x :: xs) = applyV1Loops (loopStep map x) xs := rfl
    rw [h0, h1]
    exact loopStep_lookup_ne (fun h => hj x (List.mem_cons_self _ _) h.symm)

theorem applyV1Loops_lookup_none {l : List (Nat × Marker)} {j : Nat}
    {map : List (Nat × LoopMarker)} (h : lookupKey j map = none) :
    lookupKey j (applyV1Loops map l) = none := by
  induction l generalizing map with
  | nil => exact h
  | cons x xs ih => exact ih (loopStep_lookup_none h)

/-- Once a `Serato Markers_` loop entry of kind `LOOP` lacks a start or end
time, its index ends up absent from the working mapping, no matter what the
other entries are. -/
theorem applyV1Loops_killed {l : List (Nat × Marker)} {i : Nat} {marker : Marker}
    (hmem : (i, marker) ∈ l)
    (h1 : marker.entry_type = EntryType.LOOP)
    (h2 : marker.start_position_millis = none ∨ marker.end_position_millis = none) :
    ∀ map, KeysSorted map → lookupKey i (applyV1Loops map l) = none := by
  induction l with
  | nil => simp at hmem
  | cons x xs ih =>
    intro map hs
    rcases List.mem_cons.mp hmem with heq | hmem2
    · cases heq
      have h0 : applyV1Loops map ((i, marker) :: xs) =
          applyV1Loops (loopStep map (i, marker)) xs := rfl
      rw [h0]
      exact applyV1Loops_lookup_none (@loopStep_kill map (i, marker) hs h1 h2)
    · exact ih hmem2 _ (loopStep_sorted _ _ hs)

/-- The reconciliation of a loop index present in both sources: with pairwise
distinct `Serato Markers_` entry indices, a `LOOP` entry with both times
present at an index mapped to `c` rewrites the mapping at that index to the
`Serato Markers_` start/end/color/lock-flag with `c`'s label. -/
theorem applyV1Loops_merge {l : List (Nat × Marker)} {i s en : Nat} {marker : Marker}
    {c : LoopMarker}
    (hn : (l.map Prod.fst).Nodup) (hmem : (i, marker) ∈ l)
    (htype : marker.entry_type = EntryType.LOOP)
    (hstart : marker.start_position_millis = some s)
    (hend : marker.end_position_millis = some en) :
    ∀ map, KeysSorted map → lookupKey i map = some c →
      lookupKey i (applyV1Loops map l) =
        some { index := i, start_position_millis := s, end_position_millis := en,
               color := marker.color, label := c.label, is_locked := marker.is_locked } := by
  induction l with
  | nil => simp at hmem
  | cons x xs ih =>
    intro map hs hc
    rw [List.map_cons, List.nodup_cons] at hn
    obtain ⟨hx, hxs⟩ := hn
    rcases List.mem_cons.mp hmem with heq | hmem2
    · cases heq
      have hfrozen : ∀ e ∈ xs, e.1 ≠ i := by
        intro e he hei
        have hm : e.1 ∈ xs.map Prod.fst := List.mem_map_of_mem Prod.fst he
        rw [hei] at hm
        exact hx hm
      have h0 : applyV1Loops map ((i, marker) :: xs) =
          applyV1Loops (loopStep map (i, marker)) xs := rfl
      rw [h0, applyV1Loops_lookup_frozen hfrozen _]
      exact @loopStep_merge map (i, marker) s en c htype hstart hend hc
    · have hxi : i ≠ x.1 := by
        intro hei
        have hm : i ∈ xs.map Prod.fst := List.mem_map_of_mem Prod.fst hmem2
        rw [hei] at hm
        exact hx hm
      have h0 : applyV1Loops map (x :: xs) = applyV1Loops (loopStep map x) xs := rfl
      rw [h0]
      refine ih hxs hmem2 _ (loopStep_sorted _ _ hs) ?_
      rw [loopStep_lookup_ne hxi]
      exact hc

/-! Container-level invariants and conversions between the working mapping
and the returned lists. -/

theorem keysSorted_nil {α : Type} : KeysSorted ([] : List (Nat × α)) :=
  List.Pairwise.nil

theorem valsIndexed_nil {α : Type} (f : α → Nat) : ValsIndexed f ([] : List (Nat × α)) := by
  intro p hp
  simp at hp

theorem cuesMap_sorted (c : Container) : KeysSorted c.cuesMap := by
  obtain ⟨a, t, b, mk, mk2, ov⟩ := c
  cases mk with
  | none =>
    cases mk2 with
    | none => exact keysSorted_nil
    | some m2 => exact seedMap_sorted _ _
  | some m =>
    cases mk2 with
    | none => exact applyV1Cues_sorted _ _ keysSorted_nil
    | some m2 => exact applyV1Cues_sorted _ _ (seedMap_sorted _ _)

theorem cuesMap_indexed (c : Container) : ValsIndexed CueMarker.index c.cuesMap := by
  obtain ⟨a, t, b, mk, mk2, ov⟩ := c
  cases mk with
  | none =>
    cases mk2 with
    | none => exact valsIndexed_nil _
    | some m2 => exact seedMap_indexed _ _
  | some m =>
    cases mk2 with
    | none => exact applyV1Cues_indexed _ _ (valsIndexed_nil _)
    | some m2 => exact applyV1Cues_indexed _ _ (seedMap_indexed _ _)

theorem loopsMap_sorted (c : Container) : KeysSorted c.loopsMap := by
  obtain ⟨a, t, b, mk, mk2, ov⟩ := c
  cases mk with
  | none =>
    cases mk2 with
    | none => exact keysSorted_nil
    | some m2 => exact seedMap_sorted _ _
  | some m =>
    cases mk2 with
    | none => exact applyV1Loops_sorted _ _ keysSorted_nil
    | some m2 => exact applyV1Loops_sorted _ _ (seedMap_sorted _ _)

theorem loopsMap_indexed (c : Container) : ValsIndexed LoopMarker.index c.loopsMap := by
  obtain ⟨a, t, b, mk, mk2, ov⟩ := c
  cases mk with
  | none =>
    cases mk2 with
    | none => exact valsIndexed_nil _
    | some m2 => exact seedMap_indexed _ _
  | some m =>
    cases mk2 with
    | none => exact applyV1Loops_indexed _ _ (valsIndexed_nil _)
    | some m2 => exact applyV1Loops_indexed _ _ (seedMap_indexed _ _)

theorem cues_at {c : Container} {i : Nat} {x : CueMarker}
    (hl : lookupKey i c.cuesMap = some x) :
    x ∈ c.cues ∧ ∀ q ∈ c.cues, q.index = i → q = x :=
  values_at_of_lookup (cuesMap_sorted c) (cuesMap_indexed c) hl

theorem cues_absent {c : Container} {i : Nat} (hl : lookupKey i c.cuesMap = none) :
    ∀ q ∈ c.cues, q.index ≠ i :=
  values_none_of_lookup (cuesMap_indexed c) hl

theorem loops_at {c : Container} {i : Nat} {x : LoopMarker}
    (hl : lookupKey i c.loopsMap = some x) :
    x ∈ c.loops ∧ ∀ q ∈ c.loops, q.index = i → q = x :=
  values_at_of_lookup (loopsMap_sorted c) (loopsMap_indexed c) hl

theorem loops_absent {c : Container} {i : Nat} (hl : lookupKey i c.loopsMap = none) :
    ∀ q ∈ c.loops, q.index ≠ i :=
  values_none_of_lookup (loopsMap_indexed c) hl

theorem cuesMap_eq_of_slots {c : Container} {m1 : Markers} {m2 : Markers2}
    (hm1 : c.markers = some m1) (hm2 : c.markers2 = some m2) :
    c.cuesMap = applyV1Cues (seedMap CueMarker.index m2.cues) m1.cues := by
  simp [Container.cuesMap, hm1, hm2]

theorem cuesMap_eq_of_noV2 {c : Container} {m1 : Markers}
    (hm1 : c.markers = some m1) (hm2 : c.markers2 = none) :
    c.cuesMap = applyV1Cues [] m1.cues := by
  simp [Container.cuesMap, hm1, hm2]

theorem cuesMap_eq_of_noV1 {c : Container} {m2 : Markers2}
    (hm1 : c.markers = none) (hm2 : c.markers2 = some m2) :
    c.cuesMap = seedMap CueMarker.index m2.cues := by
  simp [Container.cuesMap, hm1, hm2]

theorem loopsMap_eq_of_slots {c : Container} {m1 : Markers} {m2 : Markers2}
    (hm1 : c.markers = some m1) (hm2 : c.markers2 = some m2) :
    c.loopsMap = applyV1Loops (seedMap LoopMarker.index m2.loops) m1.loops := by
  simp [Container.loopsMap, hm1, hm2]

theorem loopsMap_eq_of_noV2 {c : Container} {m1 : Markers}
    (hm1 : c.markers = some m1) (hm2 : c.markers2 = none) :
    c.loopsMap = applyV1Loops [] m1.loops := by
  simp [Container.loopsMap, hm1, hm2]

theorem loopsMap_eq_of_noV1 {c : Container} {m2 : Markers2}
    (hm1 : c.markers = none) (hm2 : c.markers2 = some m2) :
    c.loopsMap = seedMap LoopMarker.index m2.loops := by
  simp [Container.loopsMap, hm1, hm2]

/-! Frame lemmas: a reconciliation step reads and writes only its own key,
so two working mappings agreeing outside an index keep agreeing outside it. -/

theorem mem_values_iff_lookup {α : Type} {f : α → Nat} {l : List (Nat × α)} {q : α}
    (hs : KeysSorted l) (hv : ValsIndexed f l) :
    q ∈ l.map Prod.snd ↔ lookupKey (f q) l = some q := by
  constructor
  · intro hq
    rcases List.mem_map.mp hq with ⟨p, hp, hpq⟩
    obtain ⟨pk, pv⟩ := p
    cases hpq
    have hik : pk = f pv := (hv _ hp).symm
    rw [← hik]
    exact lookupKey_of_mem_sorted hs hp
  · intro hl
    exact List.mem_map_of_mem Prod.snd (lookupKey_mem hl)

theorem cueStep_congr {i : Nat} {s₁ s₂ : List (Nat × CueMarker)} (x : Nat × Marker)
    (hs₁ : KeysSorted s₁) (hs₂ : KeysSorted s₂)
    (h : ∀ j, j ≠ i → lookupKey j s₁ = lookupKey j s₂) :
    ∀ j, j ≠ i → lookupKey j (cueStep s₁ x) = lookupKey j (cueStep s₂ x) := by
  intro j hj
  by_cases hxi : x.1 = i
  · have hjx : j ≠ x.1 := fun he => hj (he.trans hxi)
    rw [cueStep_lookup_ne hjx, cueStep_lookup_ne hjx]
    exact h j hj
  · have hkk := h x.1 hxi
    have hrem : lookupKey j (removeKey x.1 s₁) = lookupKey j (removeKey x.1 s₂) := by
      by_cases hjk : j = x.1
      · subst hjk
        rw [lookupKey_removeKey_self hs₁, lookupKey_removeKey_self hs₂]
      · rw [lookupKey_removeKey_ne _ hjk, lookupKey_removeKey_ne _ hjk]
        exact h j hj
    cases htype : x.2.entry_type with
    | INVALID =>
      simp only [cueStep, htype]
      exact hrem
    | CUE =>
      cases hstart : x.2.start_position_millis with
      | none =>
        simp only [cueStep, htype, hstart]
        exact hrem
      | some p =>
        simp only [cueStep, htype, hstart, ← hkk]
        cases hlook : lookupKey x.1 s₁ with
        | none => exact h j hj
        | some c =>
          by_cases hjk : j = x.1
          · subst hjk
            rw [lookupKey_insertSorted_self, lookupKey_insertSorted_self]
          · rw [lookupKey_insertSorted_ne _ _ hjk, lookupKey_insertSorted_ne _ _ hjk]
            exact hrem
    | LOOP =>
      simp only [cueStep, htype]
      exact h j hj
    | OTHER =>
      simp only [cueStep, htype]
      exact h j hj

theorem applyV1Cues_congr {i : Nat} (l : List (Nat × Marker)) :
    ∀ s₁ s₂, KeysSorted s₁ → KeysSorted s₂ →
      (∀ j, j ≠ i → lookupKey j s₁ = lookupKey j s₂) →
      ∀ j, j ≠ i → lookupKey j (applyV1Cues s₁ l) = lookupKey j (applyV1Cues s₂ l) := by
  induction l with
  | nil =>
    intro s₁ s₂ _ _ h j hj
    exact h j hj
  | cons x xs ih =>
    intro s₁ s₂ hs₁ hs₂ h j hj
    exact ih (cueStep s₁ x) (cueStep s₂ x) (cueStep_sorted _ _ hs₁) (cueStep_sorted _ _ hs₂)
      (cueStep_congr x hs₁ hs₂ h) j hj

theorem loopStep_congr {i : Nat} {s₁ s₂ : List (Nat × LoopMarker)} (x : Nat × Marker)
    (hs₁ : KeysSorted s₁) (hs₂ : KeysSorted s₂)
    (h : ∀ j, j ≠ i → lookupKey j s₁ = lookupKey j s₂) :
    ∀ j, j ≠ i → lookupKey j (loopStep s₁ x) = lookupKey j (loopStep s₂ x) := by
  intro j hj
  by_cases hxi : x.1 = i
  · have hjx : j ≠ x.1 := fun he => hj (he.trans hxi)
    rw [loopStep_lookup_ne hjx, loopStep_lookup_ne hjx]
    exact h j hj
  · have hkk := h x.1 hxi
    have hrem : lookupKey j (removeKey x.1 s₁) = lookupKey j (removeKey x.1 s₂) := by
      by_cases hjk : j = x.1
      · subst hjk
        rw [lookupKey_removeKey_self hs₁, lookupKey_removeKey_self hs₂]
      · rw [lookupKey_removeKey_ne _ hjk, lookupKey_removeKey_ne _ hjk]
        exact h j hj
    by_cases htype : x.2.entry_type = EntryType.LOOP
    · cases hstart : x.2.start_position_millis with
      | none =>
        simp only [loopStep, htype, hstart]
        simp only [ne_eq, not_true_eq_false, if_false]
        exact hrem
      | some s =>
        cases hend : x.2.end_position_millis with
        | none =>
          simp only [loopStep, htype, hstart, hend]
          simp only [ne_eq, not_true_eq_false, if_false]
          exact hrem
        | some en =>
          simp only [loopStep, htype, hstart, hend, ← hkk]
          simp only [ne_eq, not_true_eq_false, if_false]
          cases hlook : lookupKey x.1 s₁ with
          | none => exact h j hj
          | some c =>
            by_cases hjk : j = x.1
            · subst hjk
              rw [lookupKey_insertSorted_self, lookupKey_insertSorted_self]
            · rw [lookupKey_insertSorted_ne _ _ hjk, lookupKey_insertSorted_ne _ _ hjk]
              exact hrem
    · simp only [loopStep, htype]
      simp only [ne_eq, if_true, ite_not, if_neg htype]
      exact h j hj

theorem applyV1Loops_congr {i : Nat} (l : List (Nat × Marker)) :
    ∀ s₁ s₂, KeysSorted s₁ → KeysSorted s₂ →
      (∀ j, j ≠ i → lookupKey j s₁ = lookupKey j s₂) →
      ∀ j, j ≠ i → lookupKey j (applyV1Loops s₁ l) = lookupKey j (applyV1Loops s₂ l) := by
  induction l with
  | nil =>
    intro s₁ s₂ _ _ h j hj
    exact h j hj
  | cons x xs ih =>
    intro s₁ s₂ hs₁ hs₂ h j hj
    exact ih (loopStep s₁ x) (loopStep s₂ x) (loopStep_sorted _ _ hs₁) (loopStep_sorted _ _ hs₂)
      (loopStep_congr x hs₁ hs₂ h) j hj

/-! The explicit panic model agrees with the total functions: the `unwrap()`
calls are unreachable. -/

theorem cueStepE_eq (map : List (Nat × CueMarker)) (e : Nat × Marker) :
    cueStepE map e = some (cueStep map e) := by
  cases htype : e.2.entry_type with
  | INVALID => simp [cueStepE, cueStep, htype]
  | CUE =>
    cases hstart : e.2.start_position_millis with
    | none => simp [cueStepE, cueStep, htype, hstart]
    | some p =>
      cases hlook : lookupKey e.1 map with
      | none => simp [cueStepE, cueStep, htype, hstart, hlook]
      | some c => simp [cueStepE, cueStep, htype, hstart, hlook]
  | LOOP => simp [cueStepE, cueStep, htype]
  | OTHER => simp [cueStepE, cueStep, htype]

theorem loopStepE_eq (map : List (Nat × LoopMarker)) (e : Nat × Marker) :
    loopStepE map e = some (loopStep map e) := by
  by_cases htype : e.2.entry_type = EntryType.LOOP
  · cases hstart : e.2.start_position_millis with
    | none => simp [loopStepE, loopStep, htype, hstart]
    | some s =>
      cases hend : e.2.end_position_millis with
      | none => simp [loopStepE, loopStep, htype, hstart, hend]
      | some en =>
        cases hlook : lookupKey e.1 map with
        | none => simp [loopStepE, loopStep, htype, hstart, hend, hlook]
        | some c => simp [loopStepE, loopStep, htype, hstart, hend, hlook]
  · simp [loopStepE, loopStep, htype]

theorem foldlM_option_eq {σ β : Type} (stepE : σ → β → Option σ) (step : σ → β → σ)
    (h : ∀ s e, stepE s e = some (step s e)) :
    ∀ (l : List β) (s : σ), l.foldlM stepE s = some (l.foldl step s) := by
  intro l
  induction l with
  | nil => intro s; rfl
  | cons x xs ih =>
    intro s
    simp only [List.foldlM_cons, h s x, Option.bind_eq_bind, Option.some_bind]
    exact ih (step s x)

theorem cuesE_eq (c : Container) : c.cuesE = some c.cues := by
  obtain ⟨a, t, b, mk, mk2, ov⟩ := c
  cases mk with
  | none => rfl
  | some m =>
    simp only [Container.cuesE, Container.cues, Container.cuesMap]
    rw [foldlM_option_eq cueStepE cueStep cueStepE_eq]
    rfl

theorem loopsE_eq (c : Container) : c.loopsE = some c.loops := by
  obtain ⟨a, t, b, mk, mk2, ov⟩ := c
  cases mk with
  | none => rfl
  | some m =>
    simp only [Container.loopsE, Container.loops, Container.loopsMap]
    rw [foldlM_option_eq loopStepE loopStep loopStepE_eq]
    rfl


/-! The claims. -/

/-- C1: for every index that appears both as a cue marker in the Markers-v2
slot (with pairwise distinct v2 cue indices) and as a Markers-v1 entry of
kind `CUE` with a present start time (with pairwise distinct v1 entry
indices), the cue returned by `cues()` at that index has the v1 entry's
start time as its position and the v1 entry's color, while its label equals
the label of the v2 cue at that index. -/
theorem C1_both_sources_cue_merge (c : Container) (m1 : Markers) (m2 : Markers2)
    (i p : Nat) (marker : Marker) (cue : CueMarker)
    (hm1 : c.markers = some m1) (hm2 : c.markers2 = some m2)
    (hn2 : (m2.cues.map CueMarker.index).Nodup)
    (hn1 : (m1.cues.map Prod.fst).Nodup)
    (hcue : cue ∈ m2.cues) (hidx : cue.index = i)
    (hmem : (i, marker) ∈ m1.cues)
    (htype : marker.entry_type = EntryType.CUE)
    (hstart : marker.start_position_millis = some p) :
    ({ index := i, position_millis := p, color := marker.color, label := cue.label } : CueMarker)
        ∈ c.cues ∧
      ∀ q ∈ c.cues, q.index = i →
        q = { index := i, position_millis := p, color := marker.color, label := cue.label } := by
  apply cues_at
  have hseed : lookupKey i (seedMap CueMarker.index m2.cues) = some cue := by
    have h0 := seedFold_lookup_nodup CueMarker.index hn2 hcue []
    rw [hidx] at h0
    exact h0
  rw [cuesMap_eq_of_slots hm1 hm2]
  exact applyV1Cues_merge hn1 hmem htype hstart _ (seedMap_sorted _ _) hseed

/-- Witness for C1 at the spec's scenario: v2 cue 3 at 1000 ms labeled
"Intro", v1 index 3 at 1200 ms red of kind `CUE`; the reconciled cue 3 is
at 1200 ms, red, labeled "Intro". -/
theorem C1_witness :
    ({ index := 3, position_millis := 1200, color := redColor, label := some "Intro" } :
        CueMarker) ∈ cSample.cues ∧
      ∀ q ∈ cSample.cues, q.index = 3 →
        q = { index := 3, position_millis := 1200, color := redColor, label := some "Intro" } :=
  C1_both_sources_cue_merge cSample m1Sample m2Sample 3 1200 v1Cue3 introCue
    rfl rfl (by decide) (by decide) (by decide) rfl (by decide) rfl rfl

/-- C2: `track_color()` returns the Markers-v1 track color whenever the
Markers-v1 slot is present, regardless of Markers-v2; with Markers-v1 absent
it returns the Markers-v2 record's track color (present or not); with both
slots absent it returns `none`. -/
theorem C2_track_color_precedence (c : Container) :
    (∀ m1, c.markers = some m1 → c.track_color = some m1.track_color) ∧
    (c.markers = none → ∀ m2, c.markers2 = some m2 → c.track_color = m2.track_color) ∧
    (c.markers = none → c.markers2 = none → c.track_color = none) := by
  refine ⟨?_, ?_, ?_⟩
  · intro m1 hm1
    simp [Container.track_color, hm1]
  · intro hm1 m2 hm2
    simp [Container.track_color, hm1, hm2]
  · intro hm1 hm2
    simp [Container.track_color, hm1, hm2]

/-- Witness for C2: v1 present wins; v1 absent falls back to v2; the empty
container has no track color. -/
theorem C2_witness :
    cSample.track_color = some m1Sample.track_color ∧
    cNoV1.track_color = m2Sample.track_color ∧
    Container.new.track_color = none :=
  ⟨(C2_track_color_precedence cSample).1 m1Sample rfl,
   (C2_track_color_precedence cNoV1).2.1 rfl m2Sample rfl,
   (C2_track_color_precedence Container.new).2.2 rfl rfl⟩

/-- C3: for every index whose Markers-v1 entry (in the v1 cue iteration) has
kind `INVALID`, the list returned by `cues()` contains no cue with that
index, even when the Markers-v2 slot defines a cue at that index. -/
theorem C3_invalid_deletes_cue (c : Container) (m1 : Markers) (i : Nat) (marker : Marker)
    (hm1 : c.markers = some m1)
    (hmem : (i, marker) ∈ m1.cues)
    (htype : marker.entry_type = EntryType.INVALID) :
    ∀ q ∈ c.cues, q.index ≠ i := by
  apply cues_absent
  rcases hm2 : c.markers2 with _ | m2
  · rw [cuesMap_eq_of_noV2 hm1 hm2]
    exact applyV1Cues_killed hmem (Or.inl htype) _ keysSorted_nil
  · rw [cuesMap_eq_of_slots hm1 hm2]
    exact applyV1Cues_killed hmem (Or.inl htype) _ (seedMap_sorted _ _)

/-- Witness for C3 at the spec's scenario: v2 defines cue 5, v1 marks index
5 `INVALID`; no cue with index 5 is returned. -/
theorem C3_witness : cSample.cues.filter (fun q => q.index == 5) = [] := by
  rw [List.filter_eq_nil_iff]
  intro a ha
  simpa using C3_invalid_deletes_cue cSample m1Sample 5 v1Invalid5 rfl (by decide) rfl a ha

/-- C4: for every index that appears both as a loop marker in the Markers-v2
slot (with pairwise distinct v2 loop indices) and as a Markers-v1 entry of
kind `LOOP` with both start and end times present (with pairwise distinct v1
entry indices), the loop returned by `loops()` at that index has the v1
entry's start time, end time, color and lock flag, while its label equals
the label of the v2 loop at that index. -/
theorem C4_both_sources_loop_merge (c : Container) (m1 : Markers) (m2 : Markers2)
    (i s en : Nat) (marker : Marker) (lp : LoopMarker)
    (hm1 : c.markers = some m1) (hm2 : c.markers2 = some m2)
    (hn2 : (m2.loops.map LoopMarker.index).Nodup)
    (hn1 : (m1.loops.map Prod.fst).Nodup)
    (hlp : lp ∈ m2.loops) (hidx : lp.index = i)
    (hmem : (i, marker) ∈ m1.loops)
    (htype : marker.entry_type = EntryType.LOOP)
    (hstart : marker.start_position_millis = some s)
    (hend : marker.end_position_millis = some en) :
    ({ index := i, start_position_millis := s, end_position_millis := en,
       color := marker.color, label := lp.label, is_locked := marker.is_locked } : LoopMarker)
        ∈ c.loops ∧
      ∀ q ∈ c.loops, q.index = i →
        q = { index := i, start_position_millis := s, end_position_millis := en,
              color := marker.color, label := lp.label, is_locked := marker.is_locked } := by
  apply loops_at
  have hseed : lookupKey i (seedMap LoopMarker.index m2.loops) = some lp := by
    have h0 := seedFold_lookup_nodup LoopMarker.index hn2 hlp []
    rw [hidx] at h0
    exact h0
  rw [loopsMap_eq_of_slots hm1 hm2]
  exact applyV1Loops_merge hn1 hmem htype hstart hend _ (seedMap_sorted _ _) hseed

/-- Witness for C4: v2 loop 1 is 10..20 ms labeled "L1"; v1 entry 1 is a
locked red `LOOP` 100..200 ms; the reconciled loop 1 is 100..200 ms, red,
locked, still labeled "L1". -/
theorem C4_witness :
    ({ index := 1, start_position_millis := 100, end_position_millis := 200,
       color := redColor, label := some "L1", is_locked := true } : LoopMarker)
        ∈ cSample.loops ∧
      ∀ q ∈ cSample.loops, q.index = 1 →
        q = { index := 1, start_position_millis := 100, end_position_millis := 200,
              color := redColor, label := some "L1", is_locked := true } :=
  C4_both_sources_loop_merge cSample m1Sample m2Sample 1 100 200 v1Loop1 sampleLoop2
    rfl rfl (by decide) (by decide) (by decide) rfl (by decide) rfl rfl rfl

theorem applyV1Cues_append (map : List (Nat × CueMarker)) (l₁ l₂ : List (Nat × Marker)) :
    applyV1Cues map (l₁ ++ l₂) = applyV1Cues (applyV1Cues map l₁) l₂ := by
  simp [applyV1Cues, List.foldl_append]

theorem applyV1Loops_append (map : List (Nat × LoopMarker)) (l₁ l₂ : List (Nat × Marker)) :
    applyV1Loops map (l₁ ++ l₂) = applyV1Loops (applyV1Loops map l₁) l₂ := by
  simp [applyV1Loops, List.foldl_append]

/-- Removing one `Serato Markers_` entry from the iterated list changes the
working mapping at that entry's index only. -/
theorem applyV1Cues_frame (seed : List (Nat × CueMarker)) (hs : KeysSorted seed)
    (L₁ L₂ : List (Nat × Marker)) (i : Nat) (marker : Marker) :
    ∀ j, j ≠ i → lookupKey j (applyV1Cues seed (L₁ ++ (i, marker) :: L₂)) =
      lookupKey j (applyV1Cues seed (L₁ ++ L₂)) := by
  intro j hj
  rw [applyV1Cues_append, applyV1Cues_append]
  have hsL : KeysSorted (applyV1Cues seed L₁) := applyV1Cues_sorted _ _ hs
  have h0 : applyV1Cues (applyV1Cues seed L₁) ((i, marker) :: L₂) =
      applyV1Cues (cueStep (applyV1Cues seed L₁) (i, marker)) L₂ := rfl
  rw [h0]
  refine applyV1Cues_congr L₂ _ _ (cueStep_sorted _ _ hsL) hsL ?_ j hj
  intro j' hj'
  exact cueStep_lookup_ne hj'

/-- Loop analog of `applyV1Cues_frame`. -/
theorem applyV1Loops_frame (seed : List (Nat × LoopMarker)) (hs : KeysSorted seed)
    (L₁ L₂ : List (Nat × Marker)) (i : Nat) (marker : Marker) :
    ∀ j, j ≠ i → lookupKey j (applyV1Loops seed (L₁ ++ (i, marker) :: L₂)) =
      lookupKey j (applyV1Loops seed (L₁ ++ L₂)) := by
  intro j hj
  rw [applyV1Loops_append, applyV1Loops_append]
  have hsL : KeysSorted (applyV1Loops seed L₁) := applyV1Loops_sorted _ _ hs
  have h0 : applyV1Loops (applyV1Loops seed L₁) ((i, marker) :: L₂) =
      applyV1Loops (loopStep (applyV1Loops seed L₁) (i, marker)) L₂ := rfl
  rw [h0]
  refine applyV1Loops_congr L₂ _ _ (loopStep_sorted _ _ hsL) hsL ?_ j hj
  intro j' hj'
  exact loopStep_lookup_ne hj'

/-- C5: a malformed Markers-v1 entry — a kind-`CUE` entry with absent start
time, or a kind-`LOOP` entry with absent start or end time — causes that
index to be absent from the result of `cues()` (respectively `loops()`),
and removing such an entry from the v1 record leaves every other index's
membership in the result unchanged. -/
theorem C5_malformed_entry_dropped :
    (∀ (c : Container) (m1 : Markers) (i : Nat) (marker : Marker),
      c.markers = some m1 → (i, marker) ∈ m1.cues →
      marker.entry_type = EntryType.CUE → marker.start_position_millis = none →
      ∀ q ∈ c.cues, q.index ≠ i) ∧
    (∀ (c : Container) (m1 : Markers) (i : Nat) (marker : Marker),
      c.markers = some m1 → (i, marker) ∈ m1.loops →
      marker.entry_type = EntryType.LOOP →
      (marker.start_position_millis = none ∨ marker.end_position_millis = none) →
      ∀ q ∈ c.loops, q.index ≠ i) ∧
    (∀ (a : Option Analysis) (t : Option Autotags) (b : Option Beatgrid)
        (ov : Option Overview) (mk2 : Option Markers2)
        (L₁ L₂ lps : List (Nat × Marker)) (tc : Color) (i : Nat) (marker : Marker),
      marker.entry_type = EntryType.CUE → marker.start_position_millis = none →
      ∀ q : CueMarker, q.index ≠ i →
        (q ∈ (Container.mk a t b (some (Markers.mk (L₁ ++ (i, marker) :: L₂) lps tc)) mk2 ov).cues
          ↔ q ∈ (Container.mk a t b (some (Markers.mk (L₁ ++ L₂) lps tc)) mk2 ov).cues)) ∧
    (∀ (a : Option Analysis) (t : Option Autotags) (b : Option Beatgrid)
        (ov : Option Overview) (mk2 : Option Markers2)
        (cs L₁ L₂ : List (Nat × Marker)) (tc : Color) (i : Nat) (marker : Marker),
      marker.entry_type = EntryType.LOOP →
      (marker.start_position_millis = none ∨ marker.end_position_millis = none) →
      ∀ q : LoopMarker, q.index ≠ i →
        (q ∈ (Container.mk a t b (some (Markers.mk cs (L₁ ++ (i, marker) :: L₂) tc)) mk2 ov).loops
          ↔ q ∈ (Container.mk a t b (some (Markers.mk cs (L₁ ++ L₂) tc)) mk2 ov).loops)) := by
  refine ⟨?_, ?_, ?_, ?_⟩
  · intro c m1 i marker hm1 hmem htype hstart
    apply cues_absent
    rcases hm2 : c.markers2 with _ | m2
    · rw [cuesMap_eq_of_noV2 hm1 hm2]
      exact applyV1Cues_killed hmem (Or.inr ⟨htype, hstart⟩) _ keysSorted_nil
    · rw [cuesMap_eq_of_slots hm1 hm2]
      exact applyV1Cues_killed hmem (Or.inr ⟨htype, hstart⟩) _ (seedMap_sorted _ _)
  · intro c m1 i marker hm1 hmem htype htimes
    apply loops_absent
    rcases hm2 : c.markers2 with _ | m2
    · rw [loopsMap_eq_of_noV2 hm1 hm2]
      exact applyV1Loops_killed hmem htype htimes _ keysSorted_nil
    · rw [loopsMap_eq_of_slots hm1 hm2]
      exact applyV1Loops_killed hmem htype htimes _ (seedMap_sorted _ _)
  · intro a t b ov mk2 L₁ L₂ lps tc i marker _ _ q hq
    have hseedS : KeysSorted
        (match mk2 with
          | some m => seedMap CueMarker.index m.cues
          | none => []) := by
      cases mk2 with
      | none => exact keysSorted_nil
      | some m => exact seedMap_sorted _ _
    have hl : lookupKey q.index
        (Container.mk a t b (some (Markers.mk (L₁ ++ (i, marker) :: L₂) lps tc)) mk2 ov).cuesMap =
        lookupKey q.index
        (Container.mk a t b (some (Markers.mk (L₁ ++ L₂) lps tc)) mk2 ov).cuesMap :=
      applyV1Cues_frame _ hseedS L₁ L₂ i marker q.index hq
    show q ∈ List.map Prod.snd _ ↔ q ∈ List.map Prod.snd _
    rw [mem_values_iff_lookup (cuesMap_sorted _) (cuesMap_indexed _),
      mem_values_iff_lookup (cuesMap_sorted _) (cuesMap_indexed _), hl]
  · intro a t b ov mk2 cs L₁ L₂ tc i marker _ _ q hq
    have hseedS : KeysSorted
        (match mk2 with
          | some m => seedMap LoopMarker.index m.loops
          | none => []) := by
      cases mk2 with
      | none => exact keysSorted_nil
      | some m => exact seedMap_sorted _ _
    have hl : lookupKey q.index
        (Container.mk a t b (some (Markers.mk cs (L₁ ++ (i, marker) :: L₂) tc)) mk2 ov).loopsMap =
        lookupKey q.index
        (Container.mk a t b (some (Markers.mk cs (L₁ ++ L₂) tc)) mk2 ov).loopsMap :=
      applyV1Loops_frame _ hseedS L₁ L₂ i marker q.index hq
    show q ∈ List.map Prod.snd _ ↔ q ∈ List.map Prod.snd _
    rw [mem_values_iff_lookup (loopsMap_sorted _) (loopsMap_indexed _),
      mem_values_iff_lookup (loopsMap_sorted _) (loopsMap_indexed _), hl]

/-- Witness for C5: v1 entry 4 is a `CUE` without start time and entry 6 a
`LOOP` without end time, so indices 4 and 6 are dropped from the outputs;
and deleting either malformed entry from the v1 record does not change any
other index's membership. -/
theorem C5_witness :
    (∀ q ∈ cBad.cues, q.index ≠ 4) ∧
    (∀ q ∈ cBad.loops, q.index ≠ 6) ∧
    (introCue ∈ (Container.mk none none none
        (some (Markers.mk ([] ++ (4, v1CueNoStart) :: []) [(6, v1LoopNoEnd)] greenColor))
        (some m2Bad) none).cues
      ↔ introCue ∈ (Container.mk none none none
        (some (Markers.mk ([] ++ []) [(6, v1LoopNoEnd)] greenColor))
        (some m2Bad) none).cues) ∧
    (sampleLoop2 ∈ (Container.mk none none none
        (some (Markers.mk [(4, v1CueNoStart)] ([] ++ (6, v1LoopNoEnd) :: []) greenColor))
        (some m2Bad) none).loops
      ↔ sampleLoop2 ∈ (Container.mk none none none
        (some (Markers.mk [(4, v1CueNoStart)] ([] ++ []) greenColor))
        (some m2Bad) none).loops) :=
  ⟨C5_malformed_entry_dropped.1 cBad m1Bad 4 v1CueNoStart rfl (by decide) rfl rfl,
   C5_malformed_entry_dropped.2.1 cBad m1Bad 6 v1LoopNoEnd rfl (by decide) rfl (Or.inr rfl),
   C5_malformed_entry_dropped.2.2.1 none none none none (some m2Bad) [] []
     [(6, v1LoopNoEnd)] greenColor 4 v1CueNoStart rfl rfl introCue (by decide),
   C5_malformed_entry_dropped.2.2.2 none none none none (some m2Bad) [(4, v1CueNoStart)] [] []
     greenColor 6 v1LoopNoEnd rfl (Or.inr rfl) sampleLoop2 (by decide)⟩

/-- C6: for every state of the container's six slots, the lists returned by
`cues()` and by `loops()` are sorted strictly ascending by marker index, and
contain no two entries with the same index. -/
theorem C6_sorted_no_duplicates (c : Container) :
    c.cues.Pairwise (fun a b => a.index < b.index) ∧
    (c.cues.map CueMarker.index).Nodup ∧
    c.loops.Pairwise (fun a b => a.index < b.index) ∧
    (c.loops.map LoopMarker.index).Nodup := by
  have hcp : c.cuesMap.Pairwise (fun a b => a.2.index < b.2.index) := by
    have hs := cuesMap_sorted c
    have hv := cuesMap_indexed c
    rw [KeysSorted] at hs
    refine hs.imp_of_mem ?_
    intro a b ha hb hab
    rw [hv a ha, hv b hb]
    exact hab
  have hlp : c.loopsMap.Pairwise (fun a b => a.2.index < b.2.index) := by
    have hs := loopsMap_sorted c
    have hv := loopsMap_indexed c
    rw [KeysSorted] at hs
    refine hs.imp_of_mem ?_
    intro a b ha hb hab
    rw [hv a ha, hv b hb]
    exact hab
  refine ⟨?_, ?_, ?_, ?_⟩
  · exact List.pairwise_map.mpr hcp
  · show (List.map CueMarker.index (List.map Prod.snd c.cuesMap)).Nodup
    rw [List.map_map]
    exact List.pairwise_map.mpr (hcp.imp fun hab => Nat.ne_of_lt hab)
  · exact List.pairwise_map.mpr hlp
  · show (List.map LoopMarker.index (List.map Prod.snd c.loopsMap)).Nodup
    rw [List.map_map]
    exact List.pairwise_map.mpr (hlp.imp fun hab => Nat.ne_of_lt hab)

/-- C7: for every container state the reconciliation queries are total: the
panic-instrumented variants of `cues()` and `loops()`, in which the
`unwrap()` calls on the v1 start/end times are modelled explicitly with
`none` denoting a panic, never panic and agree with the total functions (the
remaining six queries contain no partial operation at all in the source). -/
theorem C7_no_panic (c : Container) :
    c.cuesE = some c.cues ∧ c.loopsE = some c.loops :=
  ⟨cuesE_eq c, loopsE_eq c⟩

/-- C8: for every index that has a cue marker in the Markers-v2 slot (with
pairwise distinct v2 cue indices) but no Markers-v1 entry at that index
(including when the Markers-v1 slot is absent), the cue returned by `cues()`
at that index is exactly the v2 cue marker, unchanged. -/
theorem C8_v2_only_unchanged (c : Container) (m2 : Markers2) (cue : CueMarker)
    (hm2 : c.markers2 = some m2)
    (hn2 : (m2.cues.map CueMarker.index).Nodup)
    (hcue : cue ∈ m2.cues)
    (hv1 : ∀ m1, c.markers = some m1 → ∀ e ∈ m1.cues, e.1 ≠ cue.index) :
    cue ∈ c.cues ∧ ∀ q ∈ c.cues, q.index = cue.index → q = cue := by
  apply cues_at
  have hseed : lookupKey cue.index (seedMap CueMarker.index m2.cues) = some cue :=
    seedFold_lookup_nodup CueMarker.index hn2 hcue []
  rcases hm1 : c.markers with _ | m1
  · rw [cuesMap_eq_of_noV1 hm1 hm2]
    exact hseed
  · rw [cuesMap_eq_of_slots hm1 hm2, applyV1Cues_lookup_frozen (hv1 m1 hm1) _]
    exact hseed

/-- Witness for C8: v2 defines cue 9 and v1 has no entry at index 9; cue 9
comes out exactly as v2 defined it. -/
theorem C8_witness :
    nineCue ∈ cNine.cues ∧ ∀ q ∈ cNine.cues, q.index = nineCue.index → q = nineCue :=
  C8_v2_only_unchanged cNine m2Nine nineCue rfl (by decide) (by decide)
    (by
      intro m1 h
      cases h
      decide)

/-- C9: for every index that has a well-formed Markers-v1 cue or loop entry
but no corresponding Markers-v2 marker at that index, the results of
`cues()` and `loops()` contain no entry at that index. -/
theorem C9_v1_only_ignored (c : Container) (m1 : Markers) (i : Nat)
    (hm1 : c.markers = some m1) :
    ((∃ marker, (i, marker) ∈ m1.cues ∧ marker.entry_type = EntryType.CUE ∧
        ∃ p, marker.start_position_millis = some p) →
      (∀ m2, c.markers2 = some m2 → ∀ q ∈ m2.cues, q.index ≠ i) →
      ∀ q ∈ c.cues, q.index ≠ i) ∧
    ((∃ marker, (i, marker) ∈ m1.loops ∧ marker.entry_type = EntryType.LOOP ∧
        ∃ s en, marker.start_position_millis = some s ∧
          marker.end_position_millis = some en) →
      (∀ m2, c.markers2 = some m2 → ∀ q ∈ m2.loops, q.index ≠ i) →
      ∀ q ∈ c.loops, q.index ≠ i) := by
  constructor
  · intro _ hv2
    apply cues_absent
    rcases hm2 : c.markers2 with _ | m2
    · rw [cuesMap_eq_of_noV2 hm1 hm2]
      exact applyV1Cues_lookup_none (by simp [lookupKey])
    · rw [cuesMap_eq_of_slots hm1 hm2]
      exact applyV1Cues_lookup_none
        (seedMap_lookup_absent _ _ _ (fun x hx => hv2 m2 hm2 x hx))
  · intro _ hv2
    apply loops_absent
    rcases hm2 : c.markers2 with _ | m2
    · rw [loopsMap_eq_of_noV2 hm1 hm2]
      exact applyV1Loops_lookup_none (by simp [lookupKey])
    · rw [loopsMap_eq_of_slots hm1 hm2]
      exact applyV1Loops_lookup_none
        (seedMap_lookup_absent _ _ _ (fun x hx => hv2 m2 hm2 x hx))

/-- Witness for C9: v1 defines a well-formed cue at index 9 and a
well-formed loop at index 7, both unknown to v2; neither index appears in
the outputs. -/
theorem C9_witness :
    (∀ q ∈ cNineV1.cues, q.index ≠ 9) ∧ (∀ q ∈ cNineV1.loops, q.index ≠ 7) :=
  ⟨(C9_v1_only_ignored cNineV1 m1Nine 9 rfl).1
      ⟨v1Cue3, by decide, rfl, 1200, rfl⟩
      (by
        intro m2 h
        cases h
        decide),
   (C9_v1_only_ignored cNineV1 m1Nine 7 rfl).2
      ⟨v1Loop1, by decide, rfl, 100, 200, rfl, rfl⟩
      (by
        intro m2 h
        cases h
        decide)⟩

/-- C10: when the Markers-v2 slot contains several cue (or loop) markers
with the same index, only the one occurring last in the record's iteration
order is seeded into the working mapping, and (with no Markers-v1 slot) it
alone appears in the output at that index. -/
theorem C10_last_duplicate_wins (c : Container) (m2 : Markers2)
    (hm2 : c.markers2 = some m2) (hm1 : c.markers = none) :
    (∀ (l₁ l₂ : List CueMarker) (cue : CueMarker),
      m2.cues = l₁ ++ cue :: l₂ → (∀ y ∈ l₂, y.index ≠ cue.index) →
      lookupKey cue.index (seedMap CueMarker.index m2.cues) = some cue ∧
      cue ∈ c.cues ∧ ∀ q ∈ c.cues, q.index = cue.index → q = cue) ∧
    (∀ (l₁ l₂ : List LoopMarker) (lp : LoopMarker),
      m2.loops = l₁ ++ lp :: l₂ → (∀ y ∈ l₂, y.index ≠ lp.index) →
      lookupKey lp.index (seedMap LoopMarker.index m2.loops) = some lp ∧
      lp ∈ c.loops ∧ ∀ q ∈ c.loops, q.index = lp.index → q = lp) := by
  constructor
  · intro l₁ l₂ cue hsplit hlast
    have hseed : lookupKey cue.index (seedMap CueMarker.index m2.cues) = some cue := by
      rw [hsplit]
      exact seedFold_lookup_last CueMarker.index l₁ l₂ cue hlast []
    refine ⟨hseed, ?_⟩
    apply cues_at
    rw [cuesMap_eq_of_noV1 hm1 hm2]
    exact hseed
  · intro l₁ l₂ lp hsplit hlast
    have hseed : lookupKey lp.index (seedMap LoopMarker.index m2.loops) = some lp := by
      rw [hsplit]
      exact seedFold_lookup_last LoopMarker.index l₁ l₂ lp hlast []
    refine ⟨hseed, ?_⟩
    apply loops_at
    rw [loopsMap_eq_of_noV1 hm1 hm2]
    exact hseed

/-- Witness for C10: v2 carries two cues with index 3 and two loops with
index 2; in each case the later one is the one seeded and returned. -/
theorem C10_witness :
    (lookupKey dupCueB.index (seedMap CueMarker.index m2Dup.cues) = some dupCueB ∧
      dupCueB ∈ cDup.cues ∧ ∀ q ∈ cDup.cues, q.index = dupCueB.index → q = dupCueB) ∧
    (lookupKey dupLoopB.index (seedMap LoopMarker.index m2Dup.loops) = some dupLoopB ∧
      dupLoopB ∈ cDup.loops ∧ ∀ q ∈ cDup.loops, q.index = dupLoopB.index → q = dupLoopB) :=
  ⟨(C10_last_duplicate_wins cDup m2Dup rfl rfl).1 [dupCueA] [] dupCueB rfl (by decide),
   (C10_last_duplicate_wins cDup m2Dup rfl rfl).2 [dupLoopA] [] dupLoopB rfl (by decide)⟩

end Serato
